import Mathlib

/-!
# SynTest type-inference-evaluation: shallow embedding

A shallow embedding of the prediction-matching / metrics engine
(`lib/metrics/EvaluationMetrics.ts`), the evaluator orchestration
(`TypeInferenceEvaluator`), and the scope-tracking random-type visitor
(`RandomTypeInferenceApproach` / `RandomTypeVisitor`), together with
theorems settling the specification claims.

Modelling conventions:
* JavaScript numbers carrying exact ratios are modelled as `ℚ`; the single
  use of `Number.POSITIVE_INFINITY` (fastest-execution seed) is modelled as
  `⊤ : WithTop ℚ`.
* A JavaScript `Map` is modelled as an association list with `Map.set`
  update-or-append semantics (`mapSet`) and first-hit lookup (`mapGet?`);
  a `Set` built from a list keeps first occurrences in order (`setOfList`).
* Fallible async calls are modelled with `Except`; the `try … finally`
  of `evaluateApproach` follows ECMAScript semantics: the `finally` block
  always runs, and an exception raised inside it supersedes the body's
  outcome (normal or abrupt).
-/

namespace SynTest

/-- Source position of an identifier occurrence (`{line, column}`). -/
@[ext]
structure Position where
  line : Int
  column : Int
deriving DecidableEq, Repr

/-- `GroundTruthType` from `test-cases/TestCase.ts`. -/
structure GroundTruthType where
  identifier : String
  actualType : String
  position : Position
  scope : String
deriving DecidableEq, Repr

/-- The `context` bundle carried by a `TypePrediction`. -/
structure PredictionContext where
  scope : String
  syntacticContext : String
  semanticHints : List String
deriving DecidableEq, Repr

/-- `TypePrediction` from `interfaces/TypePrediction.ts` (fields as produced
by `RandomTypeVisitor` and consumed by `EvaluationMetrics`). -/
structure TypePrediction where
  identifier : String
  predictedType : String
  position : Position
  context : PredictionContext
deriving DecidableEq, Repr

/-- `TestCase` from `test-cases/TestCase.ts` (metadata omitted: never read
by the evaluator core). -/
structure TestCase where
  id : String
  name : String
  sourceCode : String
  groundTruth : List GroundTruthType
deriving DecidableEq, Repr

/-- The anonymous match record built by `EvaluationMetrics.getMatches`. -/
structure MatchEntry where
  prediction : TypePrediction
  groundTruth : GroundTruthType
  correct : Bool
  predictedType : String
  actualType : String
deriving DecidableEq, Repr

/-- `EvaluationResult` as constructed by
`EvaluationMetrics.generateEvaluationResult`. -/
structure EvaluationResult where
  approachName : String
  predictions : List TypePrediction
  accuracy : ℚ
  precisionByType : List (String × ℚ)
  recallByType : List (String × ℚ)
  f1ScoreByType : List (String × ℚ)
  totalPredictions : Nat
  correctPredictions : Nat
  executionTime : ℚ
deriving DecidableEq, Repr

/-! ## JavaScript `Map` / `Set` emulation -/

/-- `Map.get` as an association-list lookup (first hit; a JS `Map` never
holds a duplicate key). -/
def mapGet? {α : Type} : List (String × α) → String → Option α
  | [], _ => none
  | (k', v) :: rest, k => if k' = k then some v else mapGet? rest k

/-- `Map.set`: update the existing entry in place, else append at the end
(JS `Map` iteration is in insertion order). -/
def mapSet {α : Type} : List (String × α) → String → α → List (String × α)
  | [], k, v => [(k, v)]
  | (k', v') :: rest, k, v =>
      if k' = k then (k, v) :: rest else (k', v') :: mapSet rest k v

/-- The key list of an association-list map. -/
def mapKeys {α : Type} (m : List (String × α)) : List String :=
  m.map (·.1)

/-- `Map.set` guarded by an optional value: set when present, leave the
map unchanged when absent (the shape of a `try { … set … } catch` loop
body). -/
def optSet {α : Type} (m : List (String × α)) (k : String) (r : Option α) :
    List (String × α) :=
  match r with
  | some v => mapSet m k v
  | none => m

/-- `Set.add`-style insertion: keep the first occurrence. -/
def setInsert (l : List String) (x : String) : List String :=
  if x ∈ l then l else l ++ [x]

/-- `new Set([...])`: deduplicate keeping first occurrences in order. -/
def setOfList (l : List String) : List String :=
  l.foldl setInsert []

/-! ## `EvaluationMetrics` (lib/metrics/EvaluationMetrics.ts) -/

/-- The match predicate used by `getMatches`'s `groundTruth.find(...)`:
same identifier, same line, same column. -/
def gtMatches (prediction : TypePrediction) (gt : GroundTruthType) : Bool :=
  gt.identifier == prediction.identifier &&
  gt.position.line == prediction.position.line &&
  gt.position.column == prediction.position.column

/-- `EvaluationMetrics.getMatches`: for each prediction, linearly search the
ground truth for the first entry with identical identifier and position;
drop predictions with no such entry. -/
def getMatches (predictions : List TypePrediction)
    (groundTruth : List GroundTruthType) : List MatchEntry :=
  predictions.filterMap (fun prediction =>
    (groundTruth.find? (gtMatches prediction)).map (fun matchingGroundTruth =>
      { prediction := prediction
        groundTruth := matchingGroundTruth
        correct := prediction.predictedType == matchingGroundTruth.actualType
        predictedType := prediction.predictedType
        actualType := matchingGroundTruth.actualType }))

/-- `EvaluationMetrics.calculateAccuracy`. -/
def calculateAccuracy (predictions : List TypePrediction)
    (groundTruth : List GroundTruthType) : ℚ :=
  let matchList := getMatches predictions groundTruth
  let correctPredictions := (matchList.filter (·.correct)).length
  if matchList.length > 0 then
    (correctPredictions : ℚ) / (matchList.length : ℚ)
  else 0

/-- `EvaluationMetrics.groupByPredictedType`. -/
def groupByPredictedType (matchList : List MatchEntry) :
    List (String × List MatchEntry) :=
  matchList.foldl (fun groups m =>
    mapSet groups m.predictedType
      ((mapGet? groups m.predictedType).getD [] ++ [m])) []

/-- `EvaluationMetrics.calculatePrecisionByType`. -/
def calculatePrecisionByType (predictions : List TypePrediction)
    (groundTruth : List GroundTruthType) : List (String × ℚ) :=
  let matchList := getMatches predictions groundTruth
  let typeGroups := groupByPredictedType matchList
  typeGroups.foldl (fun precisionMap p =>
    let correctPredictions := (p.2.filter (·.correct)).length
    let totalPredictions := p.2.length
    mapSet precisionMap p.1
      (if totalPredictions > 0 then
        (correctPredictions : ℚ) / (totalPredictions : ℚ)
      else 0)) []

/-- `EvaluationMetrics.groupByActualType`: count ground-truth entries per
actual type (the `_matches` argument of the source is unused). -/
def groupByActualType (groundTruth : List GroundTruthType) :
    List (String × Nat) :=
  groundTruth.foldl (fun groups gt =>
    mapSet groups gt.actualType ((mapGet? groups gt.actualType).getD 0 + 1)) []

/-- `EvaluationMetrics.calculateRecallByType`. -/
def calculateRecallByType (predictions : List TypePrediction)
    (groundTruth : List GroundTruthType) : List (String × ℚ) :=
  let matchList := getMatches predictions groundTruth
  let typeGroups := groupByActualType groundTruth
  typeGroups.foldl (fun recallMap p =>
    let correctPredictions :=
      (matchList.filter (fun m => m.correct && m.actualType == p.1)).length
    mapSet recallMap p.1
      (if p.2 > 0 then (correctPredictions : ℚ) / (p.2 : ℚ) else 0)) []

/-- `EvaluationMetrics.calculateF1ScoreByType`: over the union of the key
sets, with a missing entry read as `0` (`map.get(type) || 0`). -/
def calculateF1ScoreByType (precisionByType recallByType : List (String × ℚ)) :
    List (String × ℚ) :=
  let allTypes := setOfList (mapKeys precisionByType ++ mapKeys recallByType)
  allTypes.foldl (fun f1Map ty =>
    let precisionValue := (mapGet? precisionByType ty).getD 0
    let recallValue := (mapGet? recallByType ty).getD 0
    if precisionValue + recallValue = 0 then
      mapSet f1Map ty 0
    else
      mapSet f1Map ty (2 * precisionValue * recallValue / (precisionValue + recallValue))) []

/-- `EvaluationMetrics.generateEvaluationResult` (the wall-clock
`executionTime` is passed in by the caller). -/
def generateEvaluationResult (approachName : String)
    (predictions : List TypePrediction) (groundTruth : List GroundTruthType)
    (executionTime : ℚ) : EvaluationResult :=
  let matchList := getMatches predictions groundTruth
  let correctPredictions := (matchList.filter (·.correct)).length
  { approachName := approachName
    predictions := predictions
    accuracy := calculateAccuracy predictions groundTruth
    precisionByType := calculatePrecisionByType predictions groundTruth
    recallByType := calculateRecallByType predictions groundTruth
    f1ScoreByType :=
      calculateF1ScoreByType (calculatePrecisionByType predictions groundTruth)
        (calculateRecallByType predictions groundTruth)
    totalPredictions := matchList.length
    correctPredictions := correctPredictions
    executionTime := executionTime }

/-! ## `TypeInferenceEvaluator` (part_003, first section)

The approach's `initialize`/`predict`/`dispose` are `async` calls that may
reject; each is modelled as an `Except E` outcome over an abstract error
type `E`.  Wall-clock timing (`Date.now()`) is outside the embedding: the
`executionTime` handed to `generateEvaluationResult` is fixed to `0`. -/

/-- A registered `TypeInferenceApproach` as the evaluator observes it:
its name and the outcomes of its three lifecycle calls. -/
structure ApproachModel (E : Type) where
  name : String
  initResult : Except E Unit
  predict : String → String → Except E (List TypePrediction)
  disposeResult : Except E Unit

/-- `TypeInferenceEvaluator.registerApproach`: `Map.set(approach.name, …)`
(overwrite-not-append semantics). -/
def registerApproach {E : Type} (registry : List (String × ApproachModel E))
    (approach : ApproachModel E) : List (String × ApproachModel E) :=
  mapSet registry approach.name approach

/-- Decidable equality for `Except` outcomes (the core library does not
derive one). -/
instance exceptDecEq {ε α : Type} [DecidableEq ε] [DecidableEq α] :
    DecidableEq (Except ε α)
  | .ok a, .ok b =>
    if h : a = b then .isTrue (by rw [h]) else .isFalse (by simp [h])
  | .ok _, .error _ => .isFalse (by simp)
  | .error _, .ok _ => .isFalse (by simp)
  | .error e, .error f =>
    if h : e = f then .isTrue (by rw [h]) else .isFalse (by simp [h])

/-- Errors escaping `evaluateApproach`: the not-registered guard's
`new Error(…)` or an error thrown by the approach itself. -/
inductive EvalError (E : Type) where
  | notRegistered (approachName : String)
  | thrown (e : E)
deriving DecidableEq, Repr

/-- The `for (const testCase of testCases)` loop body of
`evaluateApproach`: call `predict` per test case in order, concatenating
all predictions into `allPredictions` and all ground truth into
`allGroundTruth`; the first rejection aborts the loop. -/
def collectPredictions {E : Type} (approach : ApproachModel E) :
    List TestCase → Except E (List TypePrediction × List GroundTruthType)
  | [] => .ok ([], [])
  | tc :: rest =>
    match approach.predict tc.sourceCode tc.id with
    | .error e => .error e
    | .ok predictions =>
      match collectPredictions approach rest with
      | .error e => .error e
      | .ok collected =>
        .ok (predictions ++ collected.1, tc.groundTruth ++ collected.2)

/-- `TypeInferenceEvaluator.evaluateApproach`.  Returns the call's outcome
paired with whether `dispose` was invoked.  Control flow follows the
source: the registry lookup and `initialize` run before the `try`; the
`finally` always runs `dispose`, and per ECMAScript semantics an exception
raised by the `finally` block supersedes the body's outcome, normal or
abrupt. -/
def evaluateApproach {E : Type} (registry : List (String × ApproachModel E))
    (approachName : String) (testCases : List TestCase) :
    Except (EvalError E) EvaluationResult × Bool :=
  match mapGet? registry approachName with
  | none => (.error (.notRegistered approachName), false)
  | some approach =>
    match approach.initResult with
    | .error e => (.error (.thrown e), false)
    | .ok _ =>
      let body : Except (EvalError E) EvaluationResult :=
        match collectPredictions approach testCases with
        | .error e => .error (.thrown e)
        | .ok collected =>
          .ok (generateEvaluationResult approachName collected.1 collected.2 0)
      match approach.disposeResult with
      | .error e => (.error (.thrown e), true)
      | .ok _ => (body, true)

/-- `TypeInferenceEvaluator.evaluateAllApproaches`: iterate the registry
keys in insertion order, evaluate each name, store successes, and catch
(log-and-drop) failures. -/
def evaluateAllApproaches {E : Type}
    (registry : List (String × ApproachModel E)) (testCases : List TestCase) :
    List (String × EvaluationResult) :=
  registry.foldl (fun results p =>
    match (evaluateApproach registry p.1 testCases).1 with
    | .ok result => mapSet results p.1 result
    | .error _ => results) []

/-! ## `TypeInferenceEvaluator.compareResults` -/

/-- One entry of the `comparison` array built by `compareResults`. -/
structure ComparisonEntry where
  approach : String
  accuracy : ℚ
  executionTime : ℚ
  correctPredictions : Nat
  totalPredictions : Nat
deriving DecidableEq, Repr

/-- The `bestAccuracy` summary record. -/
structure BestAccuracy where
  approach : String
  score : ℚ
deriving DecidableEq, Repr

/-- The `fastestExecution` summary record; its seed value is
`Number.POSITIVE_INFINITY`, modelled as `⊤ : WithTop ℚ`. -/
structure FastestExecution where
  approach : String
  time : WithTop ℚ
deriving DecidableEq, Repr

/-- The full return value of `compareResults`. -/
structure ComparisonReport where
  bestAccuracy : BestAccuracy
  fastestExecution : FastestExecution
  totalTestCases : Nat
  detailedComparison : List ComparisonEntry
deriving DecidableEq, Repr

/-- `TypeInferenceEvaluator.compareResults`.  `detailedComparison` is the
comparison array sorted by descending accuracy (JS `Array.sort` is
stable); `totalTestCases` reads `comparison[0].totalPredictions` before
the sort. -/
def compareResults (results : List (String × EvaluationResult)) :
    ComparisonReport :=
  let comparison : List ComparisonEntry := results.map (fun p =>
    { approach := p.1
      accuracy := p.2.accuracy
      executionTime := p.2.executionTime
      correctPredictions := p.2.correctPredictions
      totalPredictions := p.2.totalPredictions })
  let best : BestAccuracy × FastestExecution :=
    comparison.foldl (fun acc current =>
      let acc1 := if current.accuracy > acc.1.score then
          { approach := current.approach, score := current.accuracy }
        else acc.1
      let acc2 := if (current.executionTime : WithTop ℚ) < acc.2.time then
          { approach := current.approach
            time := (current.executionTime : WithTop ℚ) }
        else acc.2
      (acc1, acc2))
      ({ approach := "", score := -1 }, { approach := "", time := ⊤ })
  let totalTestCases :=
    match comparison with
    | [] => 0
    | c :: _ => c.totalPredictions
  { bestAccuracy := best.1
    fastestExecution := best.2
    totalTestCases := totalTestCases
    detailedComparison :=
      comparison.mergeSort (fun a b => decide (b.accuracy ≤ a.accuracy)) }

/-! ## Scope tracker (`RandomTypeVisitor`, part_003 second section)

The `_scopeStack` array holds its top at the end (`push`/`pop`/`at(-1)`). -/

/-- `RandomTypeVisitor._enterScope`: push onto the stack. -/
def enterScope (scopeStack : List String) (scope : String) : List String :=
  scopeStack ++ [scope]

/-- `RandomTypeVisitor._exitScope`: pop only when more than the root
remains. -/
def exitScope (scopeStack : List String) : List String :=
  if scopeStack.length > 1 then scopeStack.dropLast else scopeStack

/-- `RandomTypeVisitor._currentScope`: `this._scopeStack.at(-1) || "global"`. -/
def currentScope (scopeStack : List String) : String :=
  scopeStack.getLast?.getD "global"

/-- An abstract enter/exit operation on the scope stack. -/
inductive ScopeOp where
  | enter (scope : String)
  | leave
deriving DecidableEq, Repr

/-- Run a sequence of scope operations from the initial stack
`["global"]`. -/
def applyScopeOps (ops : List ScopeOp) : List String :=
  ops.foldl (fun stack op =>
    match op with
    | .enter scope => enterScope stack scope
    | .leave => exitScope stack) ["global"]

/-! ## `RandomTypeInferenceApproach` / `RandomTypeVisitor`

The babel parser and `AbstractSyntaxTreeVisitor` driver are external to
the evaluated code: parsing is a pure function of the source text, so a
fixed source text yields a fixed stream of traversal callbacks.  The
stream is modelled by `List TraversalEvent`; each event carries the node
facts the visitor callbacks read (identifier name, `loc.start`, the
parent's shape, whether this node sits in the parent's key/id/property
slot, and the `id`/`key` names of structural nodes). -/

/-- The shape of an identifier's parent node, as far as the visitor's
`t.isXxx` tests and `_extractContext` distinguish it; `other` carries the
babel `type` name used by `_extractContext`'s default branch. -/
inductive ParentKind where
  | assignmentExpression
  | variableDeclarator
  | classMethod
  | memberExpression
  | callExpression
  | returnStatement
  | property
  | functionDeclaration
  | classDeclaration
  | other (typeName : String)
deriving DecidableEq, Repr

/-- The skip guard at the top of the `Identifier` callback: the node is the
parent's `property`, `key`, or `id` for the five listed parent shapes. -/
def shouldSkipIdentifier (parent : ParentKind) (isKeyOfParent : Bool) : Bool :=
  match parent with
  | .memberExpression => isKeyOfParent
  | .property => isKeyOfParent
  | .classMethod => isKeyOfParent
  | .functionDeclaration => isKeyOfParent
  | .classDeclaration => isKeyOfParent
  | _ => false

/-- `RandomTypeVisitor._extractContext`: first matching rule wins; the
default branch returns the parent node's babel `type` name. -/
def extractContext (parent : ParentKind) : String :=
  match parent with
  | .assignmentExpression => "assignment"
  | .variableDeclarator => "variable-declaration"
  | .classMethod => "method-parameter"
  | .memberExpression => "member-access"
  | .callExpression => "function-call"
  | .returnStatement => "return-statement"
  | .property => "Property"
  | .functionDeclaration => "FunctionDeclaration"
  | .classDeclaration => "ClassDeclaration"
  | .other typeName => typeName

/-- JS `String.prototype.includes`: substring containment, on the
character lists. -/
def includesSubstr (s pattern : String) : Bool :=
  decide (pattern.data <:+: s.data)

/-- JS `String.prototype.endsWith`, on the character lists. -/
def endsWithSubstr (s pattern : String) : Bool :=
  decide (pattern.data <:+ s.data)

/-- `RandomTypeVisitor._extractSemanticHints`: name-substring cues, pushed
in the source's fixed order. -/
def extractSemanticHints (name : String) : List String :=
  (if includesSubstr name "count" || includesSubstr name "length" ||
      includesSubstr name "size" || includesSubstr name "index"
   then ["likely-number"] else []) ++
  (if includesSubstr name "name" || includesSubstr name "title" ||
      includesSubstr name "text" || includesSubstr name "message"
   then ["likely-string"] else []) ++
  (if includesSubstr name "is" || includesSubstr name "has" ||
      includesSubstr name "can" || includesSubstr name "should"
   then ["likely-boolean"] else []) ++
  (if includesSubstr name "list" || includesSubstr name "array" ||
      includesSubstr name "items" || endsWithSubstr name "s"
   then ["likely-array"] else [])

/-- One random draw: a rational in `[0, 1)`. -/
def Draw : Type := { q : ℚ // 0 ≤ q ∧ q < 1 }

/-- Modelled from the spec: the `@syntest/prng` library is not among the
source files (only its call sites are).  Per §4.3 the emission gate is "a
per-occurrence independent Bernoulli decision with success probability
`randomTypeProbability`": `prng.nextBoolean(p)` succeeds iff the uniform
draw falls below `p`. -/
def nextBoolean (trueChance : ℚ) (draw : ℚ) : Bool :=
  decide (draw < trueChance)

/-- Modelled from the spec: `prng.pickOne` draws "uniformly from
`availableTypes`" (§4.3): the uniform draw scaled by the length selects
the index. -/
def pickOne (options : List String) (draw : ℚ) : String :=
  (options.get? (Int.toNat ⌊draw * (options.length : ℚ)⌋)).getD ""

/-- One traversal callback fired by the external AST walk. -/
inductive TraversalEvent where
  | identifier (name : String) (line column : Int) (parent : ParentKind)
      (isKeyOfParent : Bool)
  | classDeclEnter (id : Option String)
  | classDeclExit
  | funcDeclEnter (id : Option String)
  | funcDeclExit
  | classMethodEnter (identifierKey : Option String)
  | classMethodExit
  | arrowEnter
  | arrowExit
  | funcExprEnter (id : Option String)
  | funcExprExit
deriving DecidableEq, Repr

/-- The mutable fields of a `RandomTypeVisitor`, plus the position of the
next unconsumed pseudo-random draw. -/
structure VisitorState where
  predictions : List TypePrediction
  scopeStack : List String
  randIdx : Nat

/-- One visitor callback of `RandomTypeVisitor`.  The `Identifier`
callback consumes one draw for `_shouldMakePrediction` and, on success,
one more for `_getRandomType`; the structural callbacks only move the
scope stack (their `exit` handlers pop unconditionally — the guard lives
in `_exitScope`). -/
def processEvent (availableTypes : List String) (randomTypeProbability : ℚ)
    (rand : Nat → Draw) (st : VisitorState) :
    TraversalEvent → VisitorState
  | .identifier name line column parent isKeyOfParent =>
    if shouldSkipIdentifier parent isKeyOfParent then st
    else if nextBoolean randomTypeProbability (rand st.randIdx).val then
      { st with
        randIdx := st.randIdx + 2
        predictions := st.predictions ++
          [{ identifier := name
             predictedType := pickOne availableTypes (rand (st.randIdx + 1)).val
             position := { line := line, column := column }
             context :=
               { scope := currentScope st.scopeStack
                 syntacticContext := extractContext parent
                 semanticHints := extractSemanticHints name } }] }
    else { st with randIdx := st.randIdx + 1 }
  | .classDeclEnter id =>
    match id with
    | some n => { st with scopeStack := enterScope st.scopeStack ("class:" ++ n) }
    | none => st
  | .classDeclExit => { st with scopeStack := exitScope st.scopeStack }
  | .funcDeclEnter id =>
    match id with
    | some n =>
      { st with scopeStack := enterScope st.scopeStack ("function:" ++ n) }
    | none => st
  | .funcDeclExit => { st with scopeStack := exitScope st.scopeStack }
  | .classMethodEnter identifierKey =>
    match identifierKey with
    | some n =>
      { st with scopeStack :=
          enterScope st.scopeStack (currentScope st.scopeStack ++ "." ++ n) }
    | none => st
  | .classMethodExit => { st with scopeStack := exitScope st.scopeStack }
  | .arrowEnter =>
    { st with scopeStack :=
        enterScope st.scopeStack (currentScope st.scopeStack ++ ".arrow") }
  | .arrowExit => { st with scopeStack := exitScope st.scopeStack }
  | .funcExprEnter id =>
    { st with scopeStack :=
        enterScope st.scopeStack (currentScope st.scopeStack ++ "." ++ id.getD "anonymous") }
  | .funcExprExit => { st with scopeStack := exitScope st.scopeStack }

/-- Run the visitor over a traversal-event stream from the fresh state
(`_predictions = []`, `_scopeStack = ["global"]`). -/
def runVisitor (availableTypes : List String) (randomTypeProbability : ℚ)
    (rand : Nat → Draw) (events : List TraversalEvent) : VisitorState :=
  events.foldl (processEvent availableTypes randomTypeProbability rand)
    { predictions := [], scopeStack := ["global"], randIdx := 0 }

/-- `RandomTypeInferenceApproach.predict`: visit the (deterministically
parsed) source and return `visitor.getPredictions()`. -/
def predictRandom (availableTypes : List String) (randomTypeProbability : ℚ)
    (rand : Nat → Draw) (events : List TraversalEvent) : List TypePrediction :=
  (runVisitor availableTypes randomTypeProbability rand events).predictions

/-- A concrete pseudo-random draw: `0`. -/
def drawZero : Draw := ⟨0, by norm_num⟩

/-- A concrete pseudo-random draw: `1/2`. -/
def drawHalf : Draw := ⟨1/2, by norm_num⟩

/-! ## Concrete fixtures (used to instantiate the general theorems) -/

/-- Fixture: the position `line 1, column 7`. -/
def samplePos : Position := { line := 1, column := 7 }

/-- Fixture: a prediction context. -/
def sampleCtx : PredictionContext :=
  { scope := "global"
    syntacticContext := "variable-declaration"
    semanticHints := ["likely-number"] }

/-- Fixture: a prediction `count : number` at `samplePos`. -/
def samplePred : TypePrediction :=
  { identifier := "count", predictedType := "number"
    position := samplePos, context := sampleCtx }

/-- Fixture: a prediction `count : string` at `samplePos` (same identifier
and position as `samplePred`, different predicted type). -/
def samplePredStr : TypePrediction :=
  { identifier := "count", predictedType := "string"
    position := samplePos, context := sampleCtx }

/-- Fixture: ground truth `count : number` at `samplePos`. -/
def sampleGT : GroundTruthType :=
  { identifier := "count", actualType := "number"
    position := samplePos, scope := "global" }

/-- Fixture: ground truth `count : string` at `samplePos`. -/
def sampleGTStr : GroundTruthType :=
  { identifier := "count", actualType := "string"
    position := samplePos, scope := "global" }

/-- Fixture: the match entry pairing `samplePred` with `sampleGT`. -/
def sampleMatch : MatchEntry :=
  { prediction := samplePred, groundTruth := sampleGT, correct := true
    predictedType := "number", actualType := "number" }

/-- Fixture: a test case whose ground truth is `[sampleGT]`. -/
def sampleTestCase : TestCase :=
  { id := "t1", name := "Test 1", sourceCode := "let count = 5;"
    groundTruth := [sampleGT] }

/-- Fixture: a test case (id `t1`) with empty ground truth. -/
def tcNoTruth : TestCase :=
  { id := "t1", name := "Test A", sourceCode := "count;"
    groundTruth := [] }

/-- Fixture: a test case (id `t1`) whose ground truth is `[sampleGTStr]`. -/
def tcStrTruth : TestCase :=
  { id := "t1", name := "Test A", sourceCode := "count;"
    groundTruth := [sampleGTStr] }

/-- Fixture: a test case (id `t2`) whose ground truth is `[sampleGT]`. -/
def tcNumTruth : TestCase :=
  { id := "t2", name := "Test B", sourceCode := "let count = 5;"
    groundTruth := [sampleGT] }

/-- Fixture: an approach whose `predict` rejects and whose `dispose` also
rejects. -/
def failingApproach : ApproachModel String :=
  { name := "A"
    initResult := .ok ()
    predict := fun _ _ => .error "predictError"
    disposeResult := .error "disposeError" }

/-- Fixture: an approach that always succeeds with no predictions. -/
def okApproach : ApproachModel String :=
  { name := "B"
    initResult := .ok ()
    predict := fun _ _ => .ok []
    disposeResult := .ok () }

/-- Fixture: an approach that emits `[samplePred]` for the test case with
id `t1` and nothing otherwise. -/
def crossApproach : ApproachModel String :=
  { name := "C"
    initResult := .ok ()
    predict := fun _ id => if id = "t1" then .ok [samplePred] else .ok []
    disposeResult := .ok () }

/-! ## Lemmas: the `Map`/`Set` emulation -/

theorem mapGet?_mapSet_self {α : Type} (m : List (String × α)) (k : String)
    (v : α) : mapGet? (mapSet m k v) k = some v := by
  induction m with
  | nil => simp [mapSet, mapGet?]
  | cons p rest ih =>
    obtain ⟨k', v'⟩ := p
    by_cases h : k' = k
    · subst h
      simp [mapSet, mapGet?]
    · simp [mapSet, mapGet?, h, ih]

theorem mapGet?_mapSet_ne {α : Type} (m : List (String × α)) (k k' : String)
    (v : α) (h : k ≠ k') : mapGet? (mapSet m k v) k' = mapGet? m k' := by
  induction m with
  | nil => simp [mapSet, mapGet?, h]
  | cons p rest ih =>
    obtain ⟨k'', v''⟩ := p
    by_cases hk : k'' = k
    · subst hk
      simp [mapSet, mapGet?, h]
    · simp [mapSet, mapGet?, hk, ih]

theorem mapKeys_mapSet {α : Type} (m : List (String × α)) (k : String)
    (v : α) :
    mapKeys (mapSet m k v) =
      if k ∈ mapKeys m then mapKeys m else mapKeys m ++ [k] := by
  induction m with
  | nil => simp [mapSet, mapKeys]
  | cons p rest ih =>
    obtain ⟨k', v'⟩ := p
    by_cases h : k' = k
    · subst h
      simp [mapSet, mapKeys]
    · have hne : ¬ k = k' := fun hk => h hk.symm
      simp only [mapSet, if_neg h, mapKeys, List.map_cons]
      simp only [mapKeys] at ih
      rw [ih]
      by_cases hmem : k ∈ rest.map (·.1)
      · simp [hmem, hne]
      · simp [hmem, hne]

theorem mapKeys_mapSet_nodup {α : Type} (m : List (String × α)) (k : String)
    (v : α) (h : (mapKeys m).Nodup) : (mapKeys (mapSet m k v)).Nodup := by
  rw [mapKeys_mapSet]
  by_cases hmem : k ∈ mapKeys m
  · simpa [hmem] using h
  · simp only [hmem, if_false]
    simpa [List.nodup_append] using ⟨h, hmem⟩

theorem mem_foldl_setInsert (l : List String) :
    ∀ (acc : List String) (x : String),
      x ∈ l.foldl setInsert acc ↔ x ∈ acc ∨ x ∈ l := by
  induction l with
  | nil => intro acc x; simp
  | cons a rest ih =>
    intro acc x
    rw [List.foldl_cons, ih]
    unfold setInsert
    by_cases h : a ∈ acc
    · simp only [if_pos h]
      constructor
      · rintro (hx | hx)
        · exact Or.inl hx
        · exact Or.inr (List.mem_cons_of_mem a hx)
      · rintro (hx | hx)
        · exact Or.inl hx
        · rcases List.mem_cons.mp hx with rfl | hx
          · exact Or.inl h
          · exact Or.inr hx
    · simp only [if_neg h, List.mem_append, List.mem_singleton, List.mem_cons]
      tauto

theorem mem_setOfList (l : List String) (x : String) :
    x ∈ setOfList l ↔ x ∈ l := by
  unfold setOfList
  rw [mem_foldl_setInsert]
  simp

theorem nodup_foldl_setInsert (l : List String) :
    ∀ acc : List String, acc.Nodup → (l.foldl setInsert acc).Nodup := by
  induction l with
  | nil => intro acc h; exact h
  | cons a rest ih =>
    intro acc h
    rw [List.foldl_cons]
    apply ih
    unfold setInsert
    by_cases hmem : a ∈ acc
    · simpa [hmem] using h
    · simp only [if_neg hmem]
      simpa [List.nodup_append] using ⟨h, hmem⟩

theorem setOfList_nodup (l : List String) : (setOfList l).Nodup :=
  nodup_foldl_setInsert l [] List.nodup_nil

/-! ## Lemmas: map-building fold loops

The `for … of` loops of the metrics engine and of `evaluateAllApproaches`
all build a fresh `Map` by iterating some keyed collection and calling
`Map.set` (possibly conditionally).  The next lemmas compute the lookup of
such a fold's result. -/

theorem foldl_optSet_not_mem {α β : Type} (g : String → β → Option α)
    (l : List (String × β)) :
    ∀ (acc : List (String × α)) (T : String), T ∉ mapKeys l →
      mapGet? (l.foldl (fun m p => optSet m p.1 (g p.1 p.2)) acc) T =
        mapGet? acc T := by
  induction l with
  | nil => intro acc T _; rfl
  | cons p rest ih =>
    intro acc T hT
    obtain ⟨k, b⟩ := p
    have hk : k ≠ T := by
      intro h
      exact hT (by simp [mapKeys, h])
    have hrest : T ∉ mapKeys rest := by
      intro h
      exact hT (by simp [mapKeys] at h ⊢; exact Or.inr h)
    rw [List.foldl_cons, ih _ T hrest]
    cases hg : g k b with
    | some r => simp [optSet, hg, mapGet?_mapSet_ne _ _ _ _ hk]
    | none => simp [optSet, hg]

theorem foldl_optSet_get {α β : Type} (g : String → β → Option α)
    (l : List (String × β)) :
    ∀ (acc : List (String × α)) (T : String), (mapKeys l).Nodup →
      mapGet? (l.foldl (fun m p => optSet m p.1 (g p.1 p.2)) acc) T =
        (mapGet? l T).elim (mapGet? acc T)
          (fun v => (g T v).or (mapGet? acc T)) := by
  induction l with
  | nil => intro acc T _; rfl
  | cons p rest ih =>
    intro acc T hnd
    obtain ⟨k, b⟩ := p
    have hnd' : (k :: mapKeys rest).Nodup := hnd
    have hk_notin : k ∉ mapKeys rest := (List.nodup_cons.mp hnd').1
    have hrest_nd : (mapKeys rest).Nodup := (List.nodup_cons.mp hnd').2
    rw [List.foldl_cons]
    by_cases hkT : k = T
    · subst hkT
      rw [foldl_optSet_not_mem g rest _ k hk_notin]
      cases hg : g k b with
      | some r => simp [optSet, mapGet?, hg, mapGet?_mapSet_self]
      | none => simp [optSet, mapGet?, hg]
    · rw [ih _ T hrest_nd]
      have hacc : mapGet? (optSet acc k (g k b)) T = mapGet? acc T := by
        cases hg : g k b with
        | some r => simp [optSet, mapGet?_mapSet_ne _ _ _ _ hkT]
        | none => rfl
      rw [hacc]
      simp [mapGet?, hkT]

theorem foldl_mapSet_not_mem {α β : Type} (f : String → β → α)
    (l : List (String × β)) :
    ∀ (acc : List (String × α)) (T : String), T ∉ mapKeys l →
      mapGet? (l.foldl (fun m p => mapSet m p.1 (f p.1 p.2)) acc) T =
        mapGet? acc T := by
  induction l with
  | nil => intro acc T _; rfl
  | cons p rest ih =>
    intro acc T hT
    obtain ⟨k, b⟩ := p
    have hk : k ≠ T := by
      intro h
      exact hT (by simp [mapKeys, h])
    have hrest : T ∉ mapKeys rest := by
      intro h
      exact hT (by simp [mapKeys] at h ⊢; exact Or.inr h)
    rw [List.foldl_cons, ih _ T hrest, mapGet?_mapSet_ne _ _ _ _ hk]

theorem foldl_mapSet_get {α β : Type} (f : String → β → α)
    (l : List (String × β)) :
    ∀ (acc : List (String × α)) (T : String), (mapKeys l).Nodup →
      mapGet? (l.foldl (fun m p => mapSet m p.1 (f p.1 p.2)) acc) T =
        (mapGet? l T).elim (mapGet? acc T) (fun v => some (f T v)) := by
  induction l with
  | nil => intro acc T _; rfl
  | cons p rest ih =>
    intro acc T hnd
    obtain ⟨k, b⟩ := p
    have hnd' : (k :: mapKeys rest).Nodup := hnd
    have hk_notin : k ∉ mapKeys rest := (List.nodup_cons.mp hnd').1
    have hrest_nd : (mapKeys rest).Nodup := (List.nodup_cons.mp hnd').2
    rw [List.foldl_cons]
    by_cases hkT : k = T
    · subst hkT
      rw [foldl_mapSet_not_mem f rest _ k hk_notin]
      simp [mapGet?, mapGet?_mapSet_self]
    · rw [ih _ T hrest_nd, mapGet?_mapSet_ne _ _ _ _ hkT]
      simp [mapGet?, hkT]

theorem foldl_mapSetKey_not_mem {α : Type} (f : String → α)
    (l : List String) :
    ∀ (acc : List (String × α)) (T : String), T ∉ l →
      mapGet? (l.foldl (fun m k => mapSet m k (f k)) acc) T = mapGet? acc T := by
  induction l with
  | nil => intro acc T _; rfl
  | cons a rest ih =>
    intro acc T hT
    have ha : a ≠ T := fun h => hT (by simp [h])
    have hrest : T ∉ rest := fun h => hT (List.mem_cons_of_mem a h)
    rw [List.foldl_cons, ih _ T hrest, mapGet?_mapSet_ne _ _ _ _ ha]

theorem foldl_mapSetKey_get {α : Type} (f : String → α) (l : List String) :
    ∀ (acc : List (String × α)) (T : String), l.Nodup →
      mapGet? (l.foldl (fun m k => mapSet m k (f k)) acc) T =
        (if T ∈ l then some (f T) else mapGet? acc T) := by
  induction l with
  | nil => intro acc T _; simp
  | cons a rest ih =>
    intro acc T hnd
    obtain ⟨ha_notin, hrest_nd⟩ := List.nodup_cons.mp hnd
    rw [List.foldl_cons]
    by_cases haT : a = T
    · subst haT
      rw [foldl_mapSetKey_not_mem f rest _ a ha_notin]
      simp [mapGet?_mapSet_self]
    · rw [ih _ T hrest_nd]
      by_cases hT : T ∈ rest
      · simp [hT, haT]
      · have : T ∉ (a :: rest) := by
          intro h
          rcases List.mem_cons.mp h with h | h
          · exact haT h.symm
          · exact hT h
        simp [hT, this, mapGet?_mapSet_ne _ _ _ _ haT]

/-! ## Lemmas: the matcher -/

theorem mem_getMatches {ps : List TypePrediction} {gts : List GroundTruthType}
    {m : MatchEntry} (h : m ∈ getMatches ps gts) :
    m.prediction ∈ ps ∧
    gts.find? (gtMatches m.prediction) = some m.groundTruth ∧
    m.groundTruth.identifier = m.prediction.identifier ∧
    m.groundTruth.position = m.prediction.position := by
  unfold getMatches at h
  rw [List.mem_filterMap] at h
  obtain ⟨p, hp, hmap⟩ := h
  rw [Option.map_eq_some'] at hmap
  obtain ⟨gt, hfind, heq⟩ := hmap
  subst heq
  have hgm : gtMatches p gt = true := List.find?_some hfind
  unfold gtMatches at hgm
  simp only [Bool.and_eq_true, beq_iff_eq] at hgm
  obtain ⟨⟨hid, hline⟩, hcol⟩ := hgm
  exact ⟨hp, hfind, hid, Position.ext hline hcol⟩

/-! ## Lemmas: `groupByActualType` counts ground truth per actual type -/

theorem groupByActualType_aux (T : String) :
    ∀ (gts : List GroundTruthType) (acc : List (String × Nat)),
      mapGet? (gts.foldl (fun groups gt =>
        mapSet groups gt.actualType
          ((mapGet? groups gt.actualType).getD 0 + 1)) acc) T =
      (match mapGet? acc T with
       | some n => some (n + (gts.filter (fun gt => gt.actualType == T)).length)
       | none =>
         if (gts.filter (fun gt => gt.actualType == T)).length = 0 then none
         else some ((gts.filter (fun gt => gt.actualType == T)).length)) := by
  intro gts
  induction gts with
  | nil => intro acc; cases h : mapGet? acc T <;> simp [h]
  | cons gt rest ih =>
    intro acc
    rw [List.foldl_cons, ih]
    by_cases hT : gt.actualType = T
    · have hset : mapGet? (mapSet acc gt.actualType
          ((mapGet? acc gt.actualType).getD 0 + 1)) T =
          some ((mapGet? acc T).getD 0 + 1) := by
        rw [hT, mapGet?_mapSet_self]
      have hfilter : ((gt :: rest).filter (fun g => g.actualType == T)) =
          gt :: (rest.filter (fun g => g.actualType == T)) := by
        simp [List.filter_cons, hT]
      rw [hset, hfilter]
      cases hacc : mapGet? acc T with
      | some n => simp; omega
      | none => simp; omega
    · have hset : mapGet? (mapSet acc gt.actualType
          ((mapGet? acc gt.actualType).getD 0 + 1)) T = mapGet? acc T :=
        mapGet?_mapSet_ne _ _ _ _ hT
      have hfilter : ((gt :: rest).filter (fun g => g.actualType == T)) =
          rest.filter (fun g => g.actualType == T) := by
        simp [List.filter_cons, hT]
      rw [hset, hfilter]

theorem mapGet?_groupByActualType (gts : List GroundTruthType) (T : String) :
    mapGet? (groupByActualType gts) T =
      if (gts.filter (fun gt => gt.actualType == T)).length = 0 then none
      else some ((gts.filter (fun gt => gt.actualType == T)).length) := by
  have h := groupByActualType_aux T gts []
  simpa [groupByActualType, mapGet?] using h

theorem groupByActualType_keys_nodup_aux :
    ∀ (gts : List GroundTruthType) (acc : List (String × Nat)),
      (mapKeys acc).Nodup →
      (mapKeys (gts.foldl (fun groups gt =>
        mapSet groups gt.actualType
          ((mapGet? groups gt.actualType).getD 0 + 1)) acc)).Nodup := by
  intro gts
  induction gts with
  | nil => intro acc h; exact h
  | cons gt rest ih =>
    intro acc h
    rw [List.foldl_cons]
    exact ih _ (mapKeys_mapSet_nodup _ _ _ h)

theorem groupByActualType_keys_nodup (gts : List GroundTruthType) :
    (mapKeys (groupByActualType gts)).Nodup :=
  groupByActualType_keys_nodup_aux gts [] (by simp [mapKeys])

/-! ## Lemmas: scope-stack invariant -/

theorem applyScopeOps_aux :
    ∀ (ops : List ScopeOp) (stack : List String),
      stack.head? = some "global" →
      1 ≤ (ops.foldl (fun stack op =>
        match op with
        | .enter scope => enterScope stack scope
        | .leave => exitScope stack) stack).length ∧
      (ops.foldl (fun stack op =>
        match op with
        | .enter scope => enterScope stack scope
        | .leave => exitScope stack) stack).head? = some "global" := by
  intro ops
  induction ops with
  | nil =>
    intro stack h2
    refine ⟨?_, h2⟩
    cases stack with
    | nil => simp at h2
    | cons a t => simp
  | cons op rest ih =>
    intro stack h2
    rw [List.foldl_cons]
    cases stack with
    | nil => simp at h2
    | cons a t =>
      have ha : a = "global" := by simpa using h2
      subst ha
      cases op with
      | enter scope =>
        apply ih
        simp [enterScope]
      | leave =>
        apply ih
        cases t with
        | nil => simp [exitScope]
        | cons b t' => simp [exitScope]

theorem exitScope_root_only (root : String) : exitScope [root] = [root] := by
  simp [exitScope]

/-! ## Lemmas: determinism of the random visitor at degenerate configs -/

theorem pickOne_singleton (t : String) (d : Draw) : pickOne [t] d.val = t := by
  unfold pickOne
  have hfloor : ⌊d.val * (([t] : List String).length : ℚ)⌋ = 0 := by
    simp only [List.length_singleton, Nat.cast_one, mul_one]
    exact Int.floor_eq_zero_iff.mpr ⟨d.2.1, d.2.2⟩
  rw [hfloor]
  rfl

theorem processEvent_deterministic (availableTypes : List String) (p : ℚ)
    (t : String) (rand1 rand2 : Nat → Draw)
    (h : p = 0 ∨ (p = 1 ∧ availableTypes = [t])) (st : VisitorState)
    (e : TraversalEvent) :
    processEvent availableTypes p rand1 st e =
      processEvent availableTypes p rand2 st e := by
  cases e with
  | identifier name line column parent isKeyOfParent =>
    unfold processEvent
    by_cases hskip : shouldSkipIdentifier parent isKeyOfParent = true
    · simp [hskip]
    · simp only [Bool.not_eq_true] at hskip
      rcases h with hp | ⟨hp, hts⟩
      · subst hp
        have h1 : nextBoolean 0 (rand1 st.randIdx).val = false := by
          simp [nextBoolean, not_lt.mpr (rand1 st.randIdx).2.1]
        have h2 : nextBoolean 0 (rand2 st.randIdx).val = false := by
          simp [nextBoolean, not_lt.mpr (rand2 st.randIdx).2.1]
        simp [hskip, h1, h2]
      · subst hp
        subst hts
        have g1 : nextBoolean 1 (rand1 st.randIdx).val = true := by
          simp [nextBoolean, (rand1 st.randIdx).2.2]
        have g2 : nextBoolean 1 (rand2 st.randIdx).val = true := by
          simp [nextBoolean, (rand2 st.randIdx).2.2]
        have p1 : pickOne [t] (rand1 (st.randIdx + 1)).val = t :=
          pickOne_singleton t _
        have p2 : pickOne [t] (rand2 (st.randIdx + 1)).val = t :=
          pickOne_singleton t _
        simp [hskip, g1, g2, p1, p2]
  | classDeclEnter id => rfl
  | classDeclExit => rfl
  | funcDeclEnter id => rfl
  | funcDeclExit => rfl
  | classMethodEnter identifierKey => rfl
  | classMethodExit => rfl
  | arrowEnter => rfl
  | arrowExit => rfl
  | funcExprEnter id => rfl
  | funcExprExit => rfl

/-! ## The claims -/

/-- C1, counterexample: two structurally distinct predictions with the same
identifier and the same position both match the one ground-truth entry, so
a ground-truth entry is NOT matched to at most one prediction. -/
theorem claim_C1_counterexample :
    samplePred ≠ samplePredStr ∧
    (getMatches [samplePred, samplePredStr] [sampleGT]).map (·.groundTruth) =
      [sampleGT, sampleGT] := by
  decide

/-- C1 (amended): in the matching produced by `getMatches`, two predictions
with the same identifier name but different (line, column) never match the
same ground-truth entry; and a ground-truth entry can be matched by two
predictions only when those predictions agree on both identifier and
(line, column). -/
theorem claim_C1 (ps : List TypePrediction) (gts : List GroundTruthType)
    (m1 m2 : MatchEntry) (h1 : m1 ∈ getMatches ps gts)
    (h2 : m2 ∈ getMatches ps gts) :
    (m1.prediction.identifier = m2.prediction.identifier →
      m1.prediction.position ≠ m2.prediction.position →
      m1.groundTruth ≠ m2.groundTruth) ∧
    (m1.groundTruth = m2.groundTruth →
      m1.prediction.identifier = m2.prediction.identifier ∧
      m1.prediction.position = m2.prediction.position) := by
  obtain ⟨-, -, hid1, hpos1⟩ := mem_getMatches h1
  obtain ⟨-, -, hid2, hpos2⟩ := mem_getMatches h2
  constructor
  · intro _ hposne hgteq
    apply hposne
    rw [← hpos1, ← hpos2, hgteq]
  · intro hgteq
    constructor
    · rw [← hid1, ← hid2, hgteq]
    · rw [← hpos1, ← hpos2, hgteq]

/-- C1, witness: instantiating the amended theorem at the one-prediction,
one-ground-truth fixture. -/
theorem claim_C1_witness :
    sampleMatch ∈ getMatches [samplePred] [sampleGT] ∧
    ((sampleMatch.prediction.identifier = sampleMatch.prediction.identifier →
      sampleMatch.prediction.position ≠ sampleMatch.prediction.position →
      sampleMatch.groundTruth ≠ sampleMatch.groundTruth) ∧
    (sampleMatch.groundTruth = sampleMatch.groundTruth →
      sampleMatch.prediction.identifier = sampleMatch.prediction.identifier ∧
      sampleMatch.prediction.position = sampleMatch.prediction.position)) :=
  ⟨by decide,
   claim_C1 [samplePred] [sampleGT] sampleMatch sampleMatch
     (by decide) (by decide)⟩

/-- C2: `calculateAccuracy` is exactly the correct-match count over the
total match count, `0` when there are no matches, and always lies in
`[0, 1]`. -/
theorem claim_C2 (predictions : List TypePrediction)
    (groundTruth : List GroundTruthType) :
    calculateAccuracy predictions groundTruth =
      (if (getMatches predictions groundTruth).length > 0 then
        (((getMatches predictions groundTruth).filter (·.correct)).length : ℚ) /
          ((getMatches predictions groundTruth).length : ℚ)
      else 0) ∧
    0 ≤ calculateAccuracy predictions groundTruth ∧
    calculateAccuracy predictions groundTruth ≤ 1 := by
  refine ⟨rfl, ?_, ?_⟩
  · unfold calculateAccuracy
    dsimp only
    split
    · positivity
    · exact le_refl 0
  · unfold calculateAccuracy
    dsimp only
    split
    · rename_i h
      rw [div_le_one (by exact_mod_cast h)]
      exact_mod_cast List.length_filter_le _ _
    · exact zero_le_one

/-- C3: for every type label present in the ground truth,
`calculateRecallByType` maps it to (correct matches with that actual type)
divided by (all ground-truth entries with that actual type); the
denominator counts the full ground-truth population for the type, and is
positive for a type present in the ground truth. -/
theorem claim_C3 (predictions : List TypePrediction)
    (groundTruth : List GroundTruthType) (T : String)
    (h : T ∈ groundTruth.map (·.actualType)) :
    mapGet? (calculateRecallByType predictions groundTruth) T =
      some ((((getMatches predictions groundTruth).filter
          (fun m => m.correct && m.actualType == T)).length : ℚ) /
        ((groundTruth.filter (fun gt => gt.actualType == T)).length : ℚ)) := by
  have hcount : 0 < (groundTruth.filter (fun gt => gt.actualType == T)).length := by
    rw [List.mem_map] at h
    obtain ⟨gt, hgt, hT⟩ := h
    have hmem : gt ∈ groundTruth.filter (fun gt => gt.actualType == T) := by
      rw [List.mem_filter]
      exact ⟨hgt, by simp [hT]⟩
    exact List.length_pos.mpr (List.ne_nil_of_mem hmem)
  have hdef : calculateRecallByType predictions groundTruth =
      (groupByActualType groundTruth).foldl (fun m p => mapSet m p.1
        ((fun ty (n : Nat) => if n > 0 then
          ((((getMatches predictions groundTruth).filter
              (fun mm => mm.correct && mm.actualType == ty)).length : ℚ) / (n : ℚ))
          else 0) p.1 p.2)) [] := rfl
  rw [hdef,
    foldl_mapSet_get
      (fun ty (n : Nat) => if n > 0 then
        ((((getMatches predictions groundTruth).filter
            (fun mm => mm.correct && mm.actualType == ty)).length : ℚ) / (n : ℚ))
        else 0)
      (groupByActualType groundTruth) [] T
      (groupByActualType_keys_nodup groundTruth),
    mapGet?_groupByActualType, if_neg (by omega)]
  simp only [Option.elim]
  rw [if_pos hcount]

/-- C3, witness: the type `number` is present in the fixture ground truth,
and its recall entry is the stated quotient. -/
theorem claim_C3_witness :
    "number" ∈ [sampleGT].map (·.actualType) ∧
    mapGet? (calculateRecallByType [] [sampleGT]) "number" =
      some ((((getMatches [] [sampleGT]).filter
          (fun m => m.correct && m.actualType == "number")).length : ℚ) /
        (([sampleGT].filter (fun gt => gt.actualType == "number")).length : ℚ)) :=
  ⟨by decide, claim_C3 [] [sampleGT] "number" (by decide)⟩

/-- C4: `calculateF1ScoreByType` has an entry exactly for each type label
in the union of the two key sets; a missing precision or recall entry is
read as `0`, and the value is `2·P·R/(P+R)` unless `P+R = 0`, in which
case it is `0`. -/
theorem claim_C4 (P R : List (String × ℚ)) (T : String) :
    ((T ∈ mapKeys P ∨ T ∈ mapKeys R) →
      mapGet? (calculateF1ScoreByType P R) T =
        some (if (mapGet? P T).getD 0 + (mapGet? R T).getD 0 = 0 then 0
          else 2 * (mapGet? P T).getD 0 * (mapGet? R T).getD 0 /
            ((mapGet? P T).getD 0 + (mapGet? R T).getD 0))) ∧
    (T ∉ mapKeys P → T ∉ mapKeys R →
      mapGet? (calculateF1ScoreByType P R) T = none) := by
  have hbridge : calculateF1ScoreByType P R =
      (setOfList (mapKeys P ++ mapKeys R)).foldl (fun m k => mapSet m k
        ((fun ty => if (mapGet? P ty).getD 0 + (mapGet? R ty).getD 0 = 0 then 0
          else 2 * (mapGet? P ty).getD 0 * (mapGet? R ty).getD 0 /
            ((mapGet? P ty).getD 0 + (mapGet? R ty).getD 0)) k)) [] := by
    simp only [calculateF1ScoreByType]
    congr 1
    funext m ty
    dsimp only
    by_cases hc : (mapGet? P ty).getD 0 + (mapGet? R ty).getD 0 = 0
    · simp [hc]
    · simp [hc]
  have hkey := foldl_mapSetKey_get
      (fun ty => if (mapGet? P ty).getD 0 + (mapGet? R ty).getD 0 = 0 then 0
        else 2 * (mapGet? P ty).getD 0 * (mapGet? R ty).getD 0 /
          ((mapGet? P ty).getD 0 + (mapGet? R ty).getD 0))
      (setOfList (mapKeys P ++ mapKeys R)) [] T
      (setOfList_nodup (mapKeys P ++ mapKeys R))
  constructor
  · intro hmem
    rw [hbridge, hkey,
      if_pos ((mem_setOfList _ _).mpr (List.mem_append.mpr hmem))]
  · intro h1 h2
    have hnotin : T ∉ setOfList (mapKeys P ++ mapKeys R) := by
      rw [mem_setOfList, List.mem_append]
      rintro (h | h)
      · exact h1 h
      · exact h2 h
    rw [hbridge, hkey, if_neg hnotin]
    rfl

/-- C4, witness: with precision `{number ↦ 1}` and an empty recall map,
`number` (present only on the precision side) gets the stated F1 entry. -/
theorem claim_C4_witness :
    ("number" ∈ mapKeys [("number", (1 : ℚ))] ∨
      "number" ∈ mapKeys ([] : List (String × ℚ))) ∧
    mapGet? (calculateF1ScoreByType [("number", (1 : ℚ))] []) "number" =
      some (if (mapGet? [("number", (1 : ℚ))] "number").getD 0 +
          (mapGet? ([] : List (String × ℚ)) "number").getD 0 = 0 then 0
        else 2 * (mapGet? [("number", (1 : ℚ))] "number").getD 0 *
            (mapGet? ([] : List (String × ℚ)) "number").getD 0 /
          ((mapGet? [("number", (1 : ℚ))] "number").getD 0 +
            (mapGet? ([] : List (String × ℚ)) "number").getD 0)) :=
  ⟨Or.inl (by decide),
   (claim_C4 [("number", (1 : ℚ))] [] "number").1 (Or.inl (by decide))⟩

/-- C5, counterexample: when `predict` rejects with `predictError` and
`dispose` rejects with `disposeError`, the evaluation's outcome is the
dispose error — the `finally` block's rejection replaces the predict
error, contradicting the claim that a dispose failure does not replace the
already-failed evaluation's error.  `dispose` was still invoked. -/
theorem claim_C5_counterexample :
    (evaluateApproach [("A", failingApproach)] "A" [sampleTestCase]).2 = true ∧
    (evaluateApproach [("A", failingApproach)] "A" [sampleTestCase]).1 =
      .error (.thrown "disposeError") ∧
    (evaluateApproach [("A", failingApproach)] "A" [sampleTestCase]).1 ≠
      .error (.thrown "predictError") := by
  refine ⟨rfl, rfl, fun h => ?_⟩
  have hd : (evaluateApproach [("A", failingApproach)] "A" [sampleTestCase]).1 =
      .error (.thrown "disposeError") := rfl
  rw [hd] at h
  injection h with h1
  injection h1 with h2
  exact absurd h2 (by decide)

/-- C5 (amended): if `predict` fails for some test case, `dispose` is still
invoked; but if `dispose` itself also fails, the dispose error replaces
the predict error as the evaluation's outcome (ECMAScript `try/finally`
semantics), and only when `dispose` succeeds does the predict error
surface. -/
theorem claim_C5 {E : Type} (registry : List (String × ApproachModel E))
    (approachName : String) (testCases : List TestCase)
    (approach : ApproachModel E) (e : E)
    (hreg : mapGet? registry approachName = some approach)
    (hinit : approach.initResult = .ok ())
    (hfail : collectPredictions approach testCases = .error e) :
    (evaluateApproach registry approachName testCases).2 = true ∧
    (evaluateApproach registry approachName testCases).1 =
      (match approach.disposeResult with
       | .ok _ => .error (.thrown e)
       | .error d => .error (.thrown d)) := by
  unfold evaluateApproach
  simp only [hreg, hinit, hfail]
  cases hd : approach.disposeResult with
  | ok u => simp
  | error d => simp

/-- C5, witness: instantiating the amended theorem on the fixture whose
`predict` and `dispose` both reject. -/
theorem claim_C5_witness :
    mapGet? [("A", failingApproach)] "A" = some failingApproach ∧
    failingApproach.initResult = .ok () ∧
    collectPredictions failingApproach [sampleTestCase] =
      .error "predictError" ∧
    ((evaluateApproach [("A", failingApproach)] "A" [sampleTestCase]).2 = true ∧
     (evaluateApproach [("A", failingApproach)] "A" [sampleTestCase]).1 =
       (match failingApproach.disposeResult with
        | .ok _ => .error (.thrown "predictError")
        | .error d => .error (.thrown d))) :=
  ⟨rfl, rfl, rfl,
   claim_C5 [("A", failingApproach)] "A" [sampleTestCase] failingApproach
     "predictError" rfl rfl rfl⟩

/-- C6: evaluating zero registered approaches returns the empty mapping,
and in general each approach's entry in the result of
`evaluateAllApproaches` is exactly the success value of its own
evaluation — a failing approach is absent while every other approach's
entry is unaffected. -/
theorem claim_C6 {E : Type} (registry : List (String × ApproachModel E))
    (testCases : List TestCase) (approachName : String)
    (hnd : (mapKeys registry).Nodup) :
    evaluateAllApproaches ([] : List (String × ApproachModel E)) testCases
      = [] ∧
    mapGet? (evaluateAllApproaches registry testCases) approachName =
      ((evaluateApproach registry approachName testCases).1).toOption := by
  refine ⟨rfl, ?_⟩
  have hbridge : evaluateAllApproaches registry testCases =
      registry.foldl (fun m p =>
        optSet m p.1 (((evaluateApproach registry p.1 testCases).1).toOption)) [] := by
    unfold evaluateAllApproaches
    congr 1
    funext m p
    dsimp only
    cases hres : (evaluateApproach registry p.1 testCases).1 with
    | ok r => simp [optSet, Except.toOption]
    | error err => simp [optSet, Except.toOption]
  rw [hbridge]
  refine (foldl_optSet_get
      (fun n (_ : ApproachModel E) =>
        ((evaluateApproach registry n testCases).1).toOption)
      registry [] approachName hnd).trans ?_
  cases hfind : mapGet? registry approachName with
  | some a =>
    cases hres : (evaluateApproach registry approachName testCases).1 with
    | ok r => simp [Except.toOption, mapGet?, Option.or]
    | error err => simp [Except.toOption, mapGet?, Option.or]
  | none =>
    have hne : (evaluateApproach registry approachName testCases).1 =
        .error (.notRegistered approachName) := by
      unfold evaluateApproach
      rw [hfind]
    simp [hne, Except.toOption, mapGet?]

/-- C6, witness: a registry with a failing approach `A` and a succeeding
approach `B`; `A` is absent from the result while `B` is present — here
instantiated at the failing name `A`. -/
theorem claim_C6_witness :
    ((mapKeys [("A", failingApproach), ("B", okApproach)]).Nodup) ∧
    (evaluateAllApproaches ([] : List (String × ApproachModel String))
      [sampleTestCase] = [] ∧
     mapGet? (evaluateAllApproaches [("A", failingApproach), ("B", okApproach)]
         [sampleTestCase]) "A" =
       ((evaluateApproach [("A", failingApproach), ("B", okApproach)] "A"
         [sampleTestCase]).1).toOption) :=
  ⟨by decide,
   claim_C6 [("A", failingApproach), ("B", okApproach)] [sampleTestCase] "A"
     (by decide)⟩

/-- C7: over every sequence of enter/exit operations started at the root
stack, the scope stack keeps at least one entry and its bottom stays the
root scope `global`; `exitScope` on a root-only stack is the identity. -/
theorem claim_C7 (ops : List ScopeOp) :
    1 ≤ (applyScopeOps ops).length ∧
    (applyScopeOps ops).head? = some "global" ∧
    exitScope ["global"] = ["global"] := by
  have h := applyScopeOps_aux ops ["global"] rfl
  exact ⟨h.1, h.2, exitScope_root_only "global"⟩

/-- C8: with a deterministic configuration — `randomTypeProbability = 0`,
or `randomTypeProbability = 1` together with a single-element
`availableTypes` — `predict` yields the same prediction sequence on a
fixed traversal (= a fixed source text) whatever the pseudo-random draws
are; hence two runs on identical input coincide. -/
theorem claim_C8 (availableTypes : List String) (randomTypeProbability : ℚ)
    (t : String) (rand1 rand2 : Nat → Draw) (events : List TraversalEvent)
    (h : randomTypeProbability = 0 ∨
      (randomTypeProbability = 1 ∧ availableTypes = [t])) :
    predictRandom availableTypes randomTypeProbability rand1 events =
      predictRandom availableTypes randomTypeProbability rand2 events := by
  have hstep : processEvent availableTypes randomTypeProbability rand1 =
      processEvent availableTypes randomTypeProbability rand2 :=
    funext fun st => funext fun e =>
      processEvent_deterministic availableTypes randomTypeProbability t
        rand1 rand2 h st e
  unfold predictRandom runVisitor
  rw [hstep]

/-- C8, witness: two different draw streams produce the same (empty)
prediction list at probability `0` over a one-identifier traversal. -/
theorem claim_C8_witness :
    ((0 : ℚ) = 0 ∨ ((0 : ℚ) = 1 ∧ (["number"] : List String) = ["number"])) ∧
    predictRandom ["number"] 0 (fun _ => drawZero)
        [TraversalEvent.identifier "count" 1 7 ParentKind.variableDeclarator
          false] =
      predictRandom ["number"] 0 (fun _ => drawHalf)
        [TraversalEvent.identifier "count" 1 7 ParentKind.variableDeclarator
          false] :=
  ⟨Or.inl rfl,
   claim_C8 ["number"] 0 "number" (fun _ => drawZero) (fun _ => drawHalf)
     [TraversalEvent.identifier "count" 1 7 ParentKind.variableDeclarator
       false]
     (Or.inl rfl)⟩

/-- C9, counterexample: the prediction coincides (identifier, line,
column) with the other test case's ground-truth entry `sampleGT`, yet the
pooled matching pairs it with its own test case's earlier entry
`sampleGTStr` — so coincidence with a different test case's entry does
not suffice for a cross-test-case match. -/
theorem claim_C9_counterexample :
    gtMatches samplePred sampleGT = true ∧
    collectPredictions crossApproach [tcStrTruth, tcNumTruth] =
      .ok ([samplePred], [sampleGTStr, sampleGT]) ∧
    (getMatches [samplePred] ([sampleGTStr] ++ [sampleGT])).map
      (·.groundTruth) = [sampleGTStr] ∧
    sampleGTStr ≠ sampleGT := by
  decide

/-- C9 (amended): `evaluateApproach`'s test-case loop concatenates all
predictions into one pool and all ground truth into another before
matching; consequently a prediction from one test case is matched to a
ground-truth entry of a different test case whenever identifier, line and
column coincide — provided no ground-truth entry earlier in the pool (in
particular none from the prediction's own test case) also coincides. -/
theorem claim_C9 {E : Type} (approach : ApproachModel E) (tc1 tc2 : TestCase)
    (ps1 ps2 : List TypePrediction)
    (h1 : approach.predict tc1.sourceCode tc1.id = .ok ps1)
    (h2 : approach.predict tc2.sourceCode tc2.id = .ok ps2) :
    collectPredictions approach [tc1, tc2] =
      .ok (ps1 ++ ps2, tc1.groundTruth ++ tc2.groundTruth) ∧
    ∀ p ∈ ps1, (∀ g ∈ tc1.groundTruth, gtMatches p g = false) →
      ∀ g2, tc2.groundTruth.find? (gtMatches p) = some g2 →
        ({ prediction := p, groundTruth := g2,
           correct := p.predictedType == g2.actualType,
           predictedType := p.predictedType,
           actualType := g2.actualType } : MatchEntry) ∈
          getMatches (ps1 ++ ps2) (tc1.groundTruth ++ tc2.groundTruth) := by
  constructor
  · simp [collectPredictions, h1, h2]
  · intro p hp hnone g2 hfind2
    unfold getMatches
    rw [List.mem_filterMap]
    refine ⟨p, List.mem_append_left _ hp, ?_⟩
    have h1none : tc1.groundTruth.find? (gtMatches p) = none :=
      List.find?_eq_none.mpr (fun g hg => by simp [hnone g hg])
    have hfind : (tc1.groundTruth ++ tc2.groundTruth).find? (gtMatches p) =
        some g2 := by
      rw [List.find?_append, h1none, hfind2]
      rfl
    rw [hfind]
    rfl

/-- C9, witness: a prediction produced for the first (truth-less) test
case is matched to the second test case's ground-truth entry in the
pooled matching. -/
theorem claim_C9_witness :
    crossApproach.predict tcNoTruth.sourceCode tcNoTruth.id =
      .ok [samplePred] ∧
    crossApproach.predict tcNumTruth.sourceCode tcNumTruth.id = .ok [] ∧
    ({ prediction := samplePred, groundTruth := sampleGT,
       correct := samplePred.predictedType == sampleGT.actualType,
       predictedType := samplePred.predictedType,
       actualType := sampleGT.actualType } : MatchEntry) ∈
      getMatches ([samplePred] ++ [])
        (tcNoTruth.groundTruth ++ tcNumTruth.groundTruth) :=
  ⟨by decide, by decide,
   (claim_C9 crossApproach tcNoTruth tcNumTruth [samplePred] []
       (by decide) (by decide)).2
     samplePred (by decide) (by decide) sampleGT (by decide)⟩

/-- C10: `compareResults` on an empty result mapping returns the seed
summary — best accuracy `("", -1)` with its score below the `[0,1]`
accuracy range, fastest execution `("", +∞)`, zero `totalTestCases`, and
an empty detailed comparison. -/
theorem claim_C10 :
    compareResults ([] : List (String × EvaluationResult)) =
      { bestAccuracy := { approach := "", score := -1 }
        fastestExecution := { approach := "", time := ⊤ }
        totalTestCases := 0
        detailedComparison := [] } ∧
    (compareResults ([] : List (String × EvaluationResult))).bestAccuracy.score
      < 0 := by
  constructor
  · simp [compareResults]
  · norm_num [compareResults]

end SynTest
